import Mathlib

/-!
Verification development for the allinkl KAS SOAP client
(internal/allinkl/{types,identity,clienthelper}.go).

The definitions below are a shallow embedding of the Go source:
  * `Item` embeds the recursive XML value node `Item` (types.go:133-140);
  * `getValue`/`getKey` embed the dynamic value resolver (types.go:340-382);
  * `doModel` embeds the post-transport part of `Client.do` (types.go:307-332),
    with Go nil-pointer dereference made explicit as the `nilDeref` outcome;
  * `Authentication` embeds `Identifier.Authentication` (identity.go:35-72),
    with the network abstracted as a function from the request to a response;
  * `updateFloodTime` embeds `Client.updateFloodTime` (types.go:334-338),
    with time modelled as integer nanoseconds as in Go `time`;
  * `goParseBool`/`goParseInt`/`goParseFloat` model the Go standard library
    `strconv` parsers used by the resolver.
-/

namespace Allinkl

/-! ## Models of the Go strconv parsers used by getValue -/

/-- Model of Go `strconv.ParseBool`: accepts exactly the twelve literals,
returns `none` (syntax error) otherwise. -/
def goParseBool (s : String) : Option Bool :=
  if s = "1" ∨ s = "t" ∨ s = "T" ∨ s = "TRUE" ∨ s = "true" ∨ s = "True" then some true
  else if s = "0" ∨ s = "f" ∨ s = "F" ∨ s = "FALSE" ∨ s = "false" ∨ s = "False" then some false
  else none

/-- Strip one leading sign character, returning (isNegative, rest). -/
def parseSign : List Char → Bool × List Char
  | '+' :: rest => (false, rest)
  | '-' :: rest => (true, rest)
  | cs => (false, cs)

/-- Numeric value of a decimal digit character. -/
def digitVal (c : Char) : Nat := c.toNat - 48

/-- Consume a maximal run of decimal digits, accumulating their value and count. -/
def readDigitsAux (acc n : Nat) : List Char → Nat × Nat × List Char
  | [] => (acc, n, [])
  | c :: rest =>
    if c.isDigit then readDigitsAux (10 * acc + digitVal c) (n + 1) rest
    else (acc, n, c :: rest)

/-- Model of Go `strconv.ParseInt(s, 10, 64)` as used by `getValue`
(the caller discards the error): `none` on a syntax error (the caller then
uses the zero value), otherwise the parsed integer clamped to the int64
range (Go returns the clamped value together with a range error that the
caller ignores). -/
def goParseInt (s : String) : Option Int :=
  let (neg, cs) := parseSign s.data
  let (v, n, rest) := readDigitsAux 0 0 cs
  if n = 0 ∨ rest ≠ [] then none
  else
    let signed : Int := if neg then -(v : Int) else (v : Int)
    some (max (-(2 ^ 63)) (min (2 ^ 63 - 1) signed))

/-- Result of Go `strconv.ParseFloat`: IEEE-754 float64 abstracted to an
exact rational for finite values, plus signed infinity and NaN. -/
inductive GoFloat where
  | finite : ℚ → GoFloat
  | posInf : GoFloat
  | negInf : GoFloat
  | nan : GoFloat
deriving DecidableEq

/-- Rational value of a parsed decimal mantissa/exponent:
sign * mantissaDigits * 10^(exponent - fractionDigits). -/
def floatVal (neg : Bool) (m fcnt : Nat) (e : Int) : ℚ :=
  (if neg then -1 else 1) * (m : ℚ) * (10 : ℚ) ^ (e - (fcnt : Int))

/-- Parse the optional exponent part and require the whole input consumed. -/
def parseExponentPart (neg : Bool) (m fcnt : Nat) : List Char → Option GoFloat
  | [] => some (.finite (floatVal neg m fcnt 0))
  | c :: rest =>
    if c = 'e' ∨ c = 'E' then
      let (eneg, rest2) := parseSign rest
      let (ev, ecnt, rest3) := readDigitsAux 0 0 rest2
      if ecnt = 0 ∨ rest3 ≠ [] then none
      else some (.finite (floatVal neg m fcnt (if eneg then -(ev : Int) else (ev : Int))))
    else none

/-- ASCII-lowercased code point of a character, as Go `lower(c)` in
`strconv`. -/
def lowerChar (c : Char) : Nat :=
  if 65 ≤ c.toNat ∧ c.toNat ≤ 90 then c.toNat + 32 else c.toNat

/-- Case-insensitive (ASCII) equality of character lists. -/
def eqCaseFold : List Char → List Char → Bool
  | [], [] => true
  | c :: cs, d :: ds => (lowerChar c == lowerChar d) && eqCaseFold cs ds
  | _, _ => false

/-- Model of Go `strconv.ParseFloat(s, 64)` as used by `getValue`:
`none` on a syntax error (the caller then uses the zero value), otherwise
the parsed value (IEEE rounding/overflow abstracted to exact rationals;
the unused underscore and hexadecimal-float literal forms are omitted).
Accepts an optional sign, a decimal mantissa with an optional dot and an
optional exponent, and the special forms inf/infinity (optionally signed)
and nan (unsigned), case-insensitively, exactly as Go `strconv.special`. -/
def goParseFloat (s : String) : Option GoFloat :=
  if eqCaseFold s.data "nan".data then some .nan
  else
    let (neg, cs) := parseSign s.data
    if eqCaseFold cs "inf".data ∨ eqCaseFold cs "infinity".data then
      some (if neg then .negInf else .posInf)
    else
      let (ip, icnt, cs2) := readDigitsAux 0 0 cs
      match cs2 with
      | '.' :: cs3 =>
        let (fp, fcnt, cs4) := readDigitsAux 0 0 cs3
        if icnt + fcnt = 0 then none
        else parseExponentPart neg (ip * 10 ^ fcnt + fp) fcnt cs4
      | _ =>
        if icnt = 0 then none
        else parseExponentPart neg ip 0 cs2

/-- Go `v, _ := strconv.ParseBool(raw)`: zero value `false` on error. -/
def goBoolZero (s : String) : Bool := (goParseBool s).getD false

/-- Go `v, _ := strconv.ParseFloat(text, 64)`: zero value `0.0` on
syntax error. -/
def goFloatZero (s : String) : GoFloat := (goParseFloat s).getD (.finite 0)

/-- Go `v, _ := strconv.ParseInt(text, 10, 64)`: zero value `0` on
syntax error. -/
def goIntZero (s : String) : Int := (goParseInt s).getD 0

/-! ## The generic value node and the dynamic value resolver -/

/-- Embeds `Item` (types.go:133-140): `Text`, `Type`, `Raw` (the `nil`
attribute), optional `Key` and `Value` sub-nodes, and the ordered child
list `Items`.  Go nil pointers become `none`/`[]`. -/
inductive Item where
  | mk (text ty raw : String) (key value : Option Item) (items : List Item)

/-- Result of the resolver: the Go `any` values `getValue` can produce. -/
inductive Value where
  | bool : Bool → Value
  | str : String → Value
  | float : GoFloat → Value
  | int : Int → Value
  | arr : List Value → Value
  | map : List (String × Value) → Value

/-- Embeds `getKey` (types.go:377-382): the key sub-node's text, or `""`
when the key sub-node is absent (Go nil). -/
def getKey : Item → String
  | .mk _ _ _ none _ _ => ""
  | .mk _ _ _ (some k) _ _ =>
    match k with
    | .mk t _ _ _ _ _ => t

/-- Model of one Go map assignment `m[k] = v` on the association-list view
of `map[string]any`: replace the value at an existing key in place,
otherwise append the new binding. -/
def mapPut (m : List (String × Value)) (k : String) (v : Value) : List (String × Value) :=
  if (m.map Prod.fst).contains k then
    m.map (fun p => if p.1 = k then (k, v) else p)
  else m ++ [(k, v)]

/-- Model of the Go map-building loop `for _, i := range items { v[key] = val }`
applied to an already-resolved entry list. -/
def buildAssoc (entries : List (String × Value)) : List (String × Value) :=
  entries.foldl (fun m p => mapPut m p.1 p.2) []

mutual

/-- Embeds `getValue` (types.go:340-375): first-match-wins over
raw marker, literal text (dispatched on the type tag), value sub-node,
children with the array tag, children without it, and the empty default. -/
def getValue : Item → Value
  | .mk text ty raw _ value items =>
    if raw ≠ "" then .bool (goBoolZero raw)
    else if text ≠ "" then
      if ty = "xsd:string" then .str text
      else if ty = "xsd:float" then .float (goFloatZero text)
      else if ty = "xsd:int" then .int (goIntZero text)
      else .str text
    else
      match value, items with
      | some v, _ => getValue v
      | none, [] => .str ""
      | none, i :: rest =>
        if ty = "SOAP-ENC:Array" then .arr (getValueList (i :: rest))
        else .map (buildAssoc (getEntryList (i :: rest)))
termination_by it => sizeOf it

/-- Resolution of each child in order (the Go `for ... append` loop). -/
def getValueList : List Item → List Value
  | [] => []
  | i :: rest => getValue i :: getValueList rest
termination_by l => sizeOf l

/-- Key/value pair of each child in order (the Go map-building loop body). -/
def getEntryList : List Item → List (String × Value)
  | [] => []
  | i :: rest => (getKey i, getValue i) :: getEntryList rest
termination_by l => sizeOf l

end

/-! ## Response envelope, faults and the operation pipeline of Client.do -/

/-- Embeds `Fault` (types.go:117-121). -/
structure Fault where
  Code : String
  Message : String
  Actor : String
deriving DecidableEq

/-- Embeds `KasResponse` (types.go:128-130): `Return *Item`. -/
structure KasResponse where
  Return : Option Item

/-- Embeds `KasAPIBody` (types.go:24-27). -/
structure KasAPIBody where
  KasAPIResponse : Option KasResponse
  Fault : Option Fault

/-- Embeds `KasAPIResponseEnvelope` (types.go:19-22). -/
structure KasAPIResponseEnvelope where
  Body : KasAPIBody

/-- Outcome of the HTTP transport and XML decode as observed by
`Client.do`: an I/O error from `HTTPClient.Do`, or a response with its
status code and, when the status is 200, the decoded envelope (`none`
standing for an XML decode failure). -/
inductive TransportResult where
  | ioErr
  | response (status : Nat) (decoded : Option KasAPIResponseEnvelope)

/-- Error taxonomy of the operation pipeline (clienthelper.go plus the
fault and mapstructure branches of `Client.do`). -/
inductive OpError where
  | httpDo
  | badStatus (status : Nat)
  | decodeFailed
  | remoteFault (f : Fault)
  | mapFailed
deriving DecidableEq

/-- Outcome of `Client.do` and of the four DNS operations: a result, a
returned error, or a Go nil-pointer dereference (panic). -/
inductive DoOutcome (α : Type) where
  | ok : α → DoOutcome α
  | error : OpError → DoOutcome α
  | nilDeref : DoOutcome α

/-- Embeds the response-handling part of `Client.do` (types.go:311-331):
transport error, status check, XML decode, fault short-circuit, then the
unconditional `envlp.Body.KasAPIResponse.Return` dereference feeding
`getValue` and `mapstructure.Decode` (abstracted as `mapper`; `none`
stands for a mapstructure error).  A nil `KasAPIResponse`, or a nil
`Return` handed to `getValue` (which reads `item.Raw`), is a nil-pointer
dereference. -/
def doModel {α : Type} (mapper : Value → Option α) : TransportResult → DoOutcome α
  | .ioErr => .error .httpDo
  | .response status decoded =>
    if status ≠ 200 then .error (.badStatus status)
    else
      match decoded with
      | none => .error .decodeFailed
      | some envlp =>
        match envlp.Body.Fault with
        | some f => .error (.remoteFault f)
        | none =>
          match envlp.Body.KasAPIResponse with
          | none => .nilDeref
          | some r =>
            match r.Return with
            | none => .nilDeref
            | some item =>
              match mapper (getValue item) with
              | none => .error .mapFailed
              | some a => .ok a

/-- Embeds `ReturnInfo` (types.go:71-79); the `any`-typed record id is a
resolved `Value`. -/
structure ReturnInfo where
  ID : Value
  ZoneHost : String
  RecordName : String
  RecordType : String
  RecordData : String
  Changeable : String
  RecordAux : Int

/-- Embeds `GetDNSSettingsResponse` (types.go:65-69). -/
structure GetDNSSettingsResponse where
  KasFloodDelay : GoFloat
  ReturnInfo : List Allinkl.ReturnInfo
  ReturnString : String

/-- Embeds `GetDNSSettingsAPIResponse` (types.go:61-63). -/
structure GetDNSSettingsAPIResponse where
  Response : GetDNSSettingsResponse

/-- Embeds `AddDNSSettingsResponse` (types.go:85-89), also used by the
update operation. -/
structure AddDNSSettingsResponse where
  KasFloodDelay : GoFloat
  ReturnInfo : String
  ReturnString : String

/-- Embeds `AddDNSSettingsAPIResponse` (types.go:81-83). -/
structure AddDNSSettingsAPIResponse where
  Response : AddDNSSettingsResponse

/-- Embeds `DeleteDNSSettingsResponse` (types.go:95-99). -/
structure DeleteDNSSettingsResponse where
  KasFloodDelay : GoFloat
  ReturnInfo : Bool
  ReturnString : String

/-- Embeds `DeleteDNSSettingsAPIResponse` (types.go:91-93). -/
structure DeleteDNSSettingsAPIResponse where
  Response : DeleteDNSSettingsResponse

/-- Embeds the response handling of `Client.GetDNSSettings`
(types.go:214-220): run `c.do` with the operation's result shape and
return the `ReturnInfo` field; errors propagate unchanged. -/
def getDNSSettingsModel (mapper : Value → Option GetDNSSettingsAPIResponse)
    (tr : TransportResult) : DoOutcome (List ReturnInfo) :=
  match doModel mapper tr with
  | .ok g => .ok g.Response.ReturnInfo
  | .error e => .error e
  | .nilDeref => .nilDeref

/-- Embeds the response handling of `Client.AddDNSSettings`
(types.go:235-241). -/
def addDNSSettingsModel (mapper : Value → Option AddDNSSettingsAPIResponse)
    (tr : TransportResult) : DoOutcome String :=
  match doModel mapper tr with
  | .ok g => .ok g.Response.ReturnInfo
  | .error e => .error e
  | .nilDeref => .nilDeref

/-- Embeds the response handling of `Client.UpdateDNSSettings`
(types.go:256-262). -/
def updateDNSSettingsModel (mapper : Value → Option AddDNSSettingsAPIResponse)
    (tr : TransportResult) : DoOutcome String :=
  match doModel mapper tr with
  | .ok g => .ok g.Response.ReturnInfo
  | .error e => .error e
  | .nilDeref => .nilDeref

/-- Embeds the response handling of `Client.DeleteDNSSettings`
(types.go:278-284). -/
def deleteDNSSettingsModel (mapper : Value → Option DeleteDNSSettingsAPIResponse)
    (tr : TransportResult) : DoOutcome Bool :=
  match doModel mapper tr with
  | .ok g => .ok g.Response.ReturnInfo
  | .error e => .error e
  | .nilDeref => .nilDeref

/-! ## Session manager (identity.go) -/

/-- Execution context as far as the client reads it: the value stored
under `tokenKey` by `WithContext`, if any (Go `context.Context`). -/
structure Context where
  token : Option String

/-- Embeds `getToken` (identity.go:76-82): the stored credential, or `""`
when absent. -/
def getToken (ctx : Context) : String := ctx.token.getD ""

/-- Embeds `WithContext` (identity.go:73-75). -/
def WithContext (_ctx : Context) (credential : String) : Context :=
  { token := some credential }

/-- Embeds `AuthRequest` (clienthelper part of the package). -/
structure AuthRequest where
  Login : String
  AuthData : String
  AuthType : String
  SessionLifetime : Int
  SessionUpdateLifetime : String
deriving DecidableEq

/-- Embeds the credential fields of `Identifier` (identity.go:19-24). -/
structure Identifier where
  login : String
  password : String

/-- Embeds `KasAuthBody`: `KasAuthResponse *KasResponse`, `Fault *Fault`. -/
structure KasAuthBody where
  KasAuthResponse : Option KasResponse
  Fault : Option Fault

/-- Embeds `KasAuthEnvelope`. -/
structure KasAuthEnvelope where
  Body : KasAuthBody

/-- Outcome of the login HTTP call and XML decode, analogous to
`TransportResult`. -/
inductive AuthNetResult where
  | ioErr
  | response (status : Nat) (decoded : Option KasAuthEnvelope)

/-- Result of `Identifier.Authentication`: the token, an error, or a Go
nil-pointer dereference on `envlp.Body.KasAuthResponse.Return.Text`. -/
inductive AuthResult where
  | ok (token : String)
  | error (e : OpError)
  | nilDeref

/-- Embeds the `AuthRequest` literal built by `Identifier.Authentication`
(identity.go:40-46): plain-password credentials, a 300-second session
lifetime, lifetime auto-renewal enabled. -/
def loginRequest (c : Identifier) : AuthRequest :=
  { Login := c.login, AuthData := c.password, AuthType := "plain"
    SessionLifetime := 300, SessionUpdateLifetime := "Y" }

/-- Embeds the response handling of `Identifier.Authentication`
(identity.go:56-71): transport error, status check, XML decode, fault
short-circuit, then `envlp.Body.KasAuthResponse.Return.Text` (a direct
field read; nil pointers on that path are a nil-pointer dereference). -/
def authResponse : AuthNetResult → AuthResult
  | .ioErr => .error .httpDo
  | .response status decoded =>
    if status ≠ 200 then .error (.badStatus status)
    else
      match decoded with
      | none => .error .decodeFailed
      | some envlp =>
        match envlp.Body.Fault with
        | some f => .error (.remoteFault f)
        | none =>
          match envlp.Body.KasAuthResponse with
          | none => .nilDeref
          | some r =>
            match r.Return with
            | none => .nilDeref
            | some (.mk text _ _ _ _ _) => .ok text

/-- Embeds `Identifier.Authentication` (identity.go:35-72) with the
network abstracted as a function from the marshalled request to its
outcome.  Returns the result together with the list of login requests
issued (empty when the context already carried a non-empty token). -/
def Authentication (c : Identifier) (ctx : Context)
    (net : AuthRequest → AuthNetResult) : AuthResult × List AuthRequest :=
  if getToken ctx ≠ "" then (.ok (getToken ctx), [])
  else (authResponse (net (loginRequest c)), [loginRequest c])

/-! ## Flood controller (types.go:307-311 and 334-338)

Time is modelled as integer nanoseconds, as in Go `time.Time`/`time.Duration`;
the float-seconds delay of `updateFloodTime` enters the model already
converted to a duration. -/

/-- Embeds `Client.updateFloodTime` (types.go:334-338): under the flood
lock, `floodTime = time.Now().Add(delay)`.  `now` is the calling moment,
`delay` the converted server delay; the result is the new deadline. -/
def updateFloodTime (now delay : Int) : Int := now + delay

/-- Deadline left by each call of a sequence of `updateFloodTime` calls,
each given as (calling moment, delay).  The mutex makes the calls atomic,
so a concurrent history is some interleaved sequence of such calls. -/
def floodDeadlines : List (Int × Int) → List Int
  | [] => []
  | (now, delay) :: rest => updateFloodTime now delay :: floodDeadlines rest

/-- Discipline under which the deadline is non-decreasing: every call
happens no earlier than the deadline in effect when it runs (the
wait-then-update pattern of `Client.do`) and carries a non-negative
delay. -/
def waitsThenUpdates (d : Int) : List (Int × Int) → Bool
  | [] => true
  | (now, delay) :: rest =>
    decide (d ≤ now) && decide (0 ≤ delay) && waitsThenUpdates (updateFloodTime now delay) rest

/-- Events of `Client.do` around the flood wait (types.go:308-311):
`muFloodTime.Lock()`, `time.Sleep(time.Until(c.floodTime))`,
`muFloodTime.Unlock()`, then `HTTPClient.Do(req)`. -/
inductive DoEvent where
  | lockFlood
  | sleepUntilDeadline
  | unlockFlood
  | httpSend
deriving DecidableEq

/-- Event sequence of `Client.do` up to the HTTP send (types.go:308-311). -/
def doEventTrace : List DoEvent :=
  [.lockFlood, .sleepUntilDeadline, .unlockFlood, .httpSend]

/-- Event sequence of `Client.GetDNSSettings` around its HTTP request:
the request is issued only through `c.do` (types.go:215). -/
def getDNSSettingsEvents : List DoEvent := doEventTrace

/-- Event sequence of `Client.AddDNSSettings` (types.go:236). -/
def addDNSSettingsEvents : List DoEvent := doEventTrace

/-- Event sequence of `Client.UpdateDNSSettings` (types.go:257). -/
def updateDNSSettingsEvents : List DoEvent := doEventTrace

/-- Event sequence of `Client.DeleteDNSSettings` (types.go:279). -/
def deleteDNSSettingsEvents : List DoEvent := doEventTrace

/-- Timed execution of an event sequence: `sleepUntilDeadline` advances
the clock to `max now deadline` (`time.Sleep` of a non-positive duration
returns immediately); every event is stamped with the moment it
completes.  Other events are modelled as instantaneous, which is the
conservative direction for a lower-bound claim on the send time. -/
def runTimed (deadline : Int) : Int → List DoEvent → List (DoEvent × Int)
  | _, [] => []
  | now, e :: rest =>
    let t := match e with
      | .sleepUntilDeadline => max now deadline
      | _ => now
    (e, t) :: runTimed deadline t rest

/-- Completion time of the first occurrence of an event in a timed trace. -/
def eventTime (tr : List (DoEvent × Int)) (e : DoEvent) : Option Int :=
  (tr.find? (fun p => p.1 == e)).map Prod.snd

/-! ## Derived notions used in the statements -/

/-- Lookup in the association-list view of a Go map: the value at the
first (and, for lists built by `buildAssoc`, only) binding of a key. -/
def lookupKV : List (String × Value) → String → Option Value
  | [], _ => none
  | p :: rest, k => if k = p.1 then some p.2 else lookupKV rest k

/-- Value of the last entry bearing a key, if any: the last-write-wins
semantics of repeated Go map assignments. -/
def lastValueFor : List (String × Value) → String → Option Value
  | [], _ => none
  | p :: rest, k =>
    match lastValueFor rest k with
    | some v => some v
    | none => if p.1 = k then some p.2 else none

/-- Kinds of values the resolver can produce. -/
inductive ValueKind where
  | bool | str | float | int | arr | map
deriving DecidableEq

/-- Kind of a resolved value. -/
def Value.kind : Value → ValueKind
  | .bool _ => .bool
  | .str _ => .str
  | .float _ => .float
  | .int _ => .int
  | .arr _ => .arr
  | .map _ => .map

/-- Login return node used as a counterexample: empty literal text with a
value sub-node carrying the token, a shape the resolver unwraps but
`Authentication` reads the (empty) literal text of. -/
def cexAuthRet : Item :=
  .mk "" "" "" none (some (.mk "TOKEN42" "" "" none none [])) []

/-- Envelope with a fault used as a concrete witness response. -/
def cexFault : Fault := { Code := "1234", Message := "bad credentials", Actor := "login" }

/-- Children of a concrete map node: keys "a", "a", "b" with values "1",
"2", "3", exercising duplicate-key overwriting. -/
def cexMapItems : List Item :=
  [.mk "1" "" "" (some (.mk "a" "" "" none none [])) none [],
   .mk "2" "" "" (some (.mk "a" "" "" none none [])) none [],
   .mk "3" "" "" (some (.mk "b" "" "" none none [])) none []]

/-- Children of a concrete map node that both lack key sub-nodes. -/
def cexKeylessItems : List Item :=
  [.mk "1" "" "" none none [], .mk "2" "" "" none none []]

/-- Response envelope whose body carries `cexFault` next to a well-formed
return node, so a short-circuit is observable. -/
def cexFaultEnvelope : KasAPIResponseEnvelope :=
  { Body := { KasAPIResponse := some { Return := some (.mk "x" "" "" none none []) }
              Fault := some cexFault } }

/-! ## Lemmas about the association-list view of the Go map -/

theorem lookupKV_append_single (m : List (String × Value)) (k : String) (v : Value)
    (k' : String) :
    lookupKV (m ++ [(k, v)]) k' =
      match lookupKV m k' with
      | some w => some w
      | none => if k' = k then some v else none := by
  induction m with
  | nil => simp [lookupKV]
  | cons p rest ih =>
    by_cases h : k' = p.1 <;> simp [lookupKV, h, ih]

theorem lookupKV_replace (m : List (String × Value)) (k : String) (v : Value)
    (k' : String) :
    lookupKV (m.map (fun p => if p.1 = k then (k, v) else p)) k' =
      if k' = k then (lookupKV m k).map (fun _ => v) else lookupKV m k' := by
  induction m with
  | nil => by_cases hk : k' = k <;> simp [lookupKV, hk]
  | cons p rest ih =>
    by_cases hp : p.1 = k
    · by_cases hk : k' = k
      · simp [lookupKV, hp, hk]
      · have hq : ¬ k' = p.1 := fun h => hk (h.trans hp)
        simp [lookupKV, hp, hk, hq, ih]
    · by_cases hk : k' = k
      · subst hk
        have hp' : ¬ k' = p.1 := fun h => hp h.symm
        simp [lookupKV, hp, hp', ih]
      · by_cases hq : k' = p.1
        · simp [lookupKV, hp, hk, hq]
        · simp [lookupKV, hp, hk, hq, ih]

theorem lookupKV_isSome_of_contains (m : List (String × Value)) (k : String)
    (h : (m.map Prod.fst).contains k = true) : (lookupKV m k).isSome := by
  induction m with
  | nil => simp at h
  | cons p rest ih =>
    simp only [List.map_cons, List.contains_cons] at h
    by_cases hp : k = p.1
    · simp [lookupKV, hp]
    · simp only [lookupKV, if_neg hp]
      refine ih ?_
      rcases Bool.or_eq_true_iff.mp h with h1 | h2
      · exact absurd (by simpa using h1) hp
      · exact h2

theorem lookupKV_none_of_not_contains (m : List (String × Value)) (k : String)
    (h : (m.map Prod.fst).contains k = false) : lookupKV m k = none := by
  induction m with
  | nil => simp [lookupKV]
  | cons p rest ih =>
    simp only [List.map_cons, List.contains_cons, Bool.or_eq_false_iff] at h
    have hp : ¬ k = p.1 := by simpa using h.1
    simp [lookupKV, hp, ih h.2]

theorem lookupKV_mapPut (m : List (String × Value)) (k : String) (v : Value)
    (k' : String) :
    lookupKV (mapPut m k v) k' = if k' = k then some v else lookupKV m k' := by
  unfold mapPut
  by_cases hc : (m.map Prod.fst).contains k
  · rw [if_pos hc, lookupKV_replace]
    by_cases hk : k' = k
    · obtain ⟨w, hw⟩ := Option.isSome_iff_exists.mp (lookupKV_isSome_of_contains m k hc)
      simp [hk, hw]
    · simp [hk]
  · rw [if_neg hc, lookupKV_append_single]
    by_cases hk : k' = k
    · subst hk
      rw [lookupKV_none_of_not_contains m k' (by simpa using hc)]
    · cases hl : lookupKV m k' <;> simp [hl, hk]

theorem lookupKV_foldl (entries : List (String × Value)) (m : List (String × Value))
    (k : String) :
    lookupKV (entries.foldl (fun acc p => mapPut acc p.1 p.2) m) k =
      match lastValueFor entries k with
      | some v => some v
      | none => lookupKV m k := by
  induction entries generalizing m with
  | nil => simp [lastValueFor]
  | cons p rest ih =>
    rw [List.foldl_cons, ih]
    cases h : lastValueFor rest k with
    | some v =>
      have hrw : lastValueFor (p :: rest) k = some v := by rw [lastValueFor, h]
      rw [hrw]
    | none =>
      have hrw : lastValueFor (p :: rest) k = if p.1 = k then some p.2 else none := by
        rw [lastValueFor, h]
      rw [hrw]
      by_cases hp : p.1 = k
      · simp [lookupKV_mapPut, hp]
      · have hp2 : ¬ k = p.1 := fun h2 => hp h2.symm
        simp [lookupKV_mapPut, hp, hp2]

theorem lookupKV_buildAssoc (entries : List (String × Value)) (k : String) :
    lookupKV (buildAssoc entries) k = lastValueFor entries k := by
  rw [buildAssoc, lookupKV_foldl]
  cases h : lastValueFor entries k <;> simp [lookupKV]

theorem lookupKV_isSome_iff (m : List (String × Value)) (k : String) :
    (lookupKV m k).isSome ↔ ∃ p ∈ m, p.1 = k := by
  induction m with
  | nil => simp [lookupKV]
  | cons p rest ih =>
    by_cases h : k = p.1
    · simp [lookupKV, h]
    · have h' : ¬ p.1 = k := fun h2 => h h2.symm
      simp [lookupKV, h, h', ih]

theorem lastValueFor_isSome_iff (entries : List (String × Value)) (k : String) :
    (lastValueFor entries k).isSome ↔ ∃ p ∈ entries, p.1 = k := by
  induction entries with
  | nil => simp [lastValueFor]
  | cons p rest ih =>
    rw [lastValueFor]
    cases h : lastValueFor rest k with
    | some v =>
      have : ∃ q ∈ rest, q.1 = k := ih.mp (by simp [h])
      simpa using Or.inr this
    | none =>
      by_cases hp : p.1 = k <;> simp [hp, ← ih, h]

theorem keys_replace (m : List (String × Value)) (k : String) (v : Value) :
    (m.map (fun p => if p.1 = k then (k, v) else p)).map Prod.fst = m.map Prod.fst := by
  induction m with
  | nil => simp
  | cons p rest ih => by_cases h : p.1 = k <;> simp [h, ih]

theorem nodup_keys_mapPut (m : List (String × Value)) (k : String) (v : Value)
    (h : (m.map Prod.fst).Nodup) : ((mapPut m k v).map Prod.fst).Nodup := by
  unfold mapPut
  by_cases hc : (m.map Prod.fst).contains k = true
  · rw [if_pos hc, keys_replace]
    exact h
  · have hk : k ∉ m.map Prod.fst := fun hmem => hc (by simpa using hmem)
    rw [if_neg hc]
    simp [List.nodup_append, h, hk]

theorem nodup_keys_buildAssoc (entries : List (String × Value)) :
    ((buildAssoc entries).map Prod.fst).Nodup := by
  rw [buildAssoc]
  suffices h : ∀ m : List (String × Value), (m.map Prod.fst).Nodup →
      ((entries.foldl (fun acc p => mapPut acc p.1 p.2) m).map Prod.fst).Nodup by
    exact h [] (by simp)
  induction entries with
  | nil => intro m hm; simpa
  | cons p rest ih =>
    intro m hm
    exact ih _ (nodup_keys_mapPut m p.1 p.2 hm)

/-! ## Lemmas about the resolver's child traversals -/

theorem getValue_mk (text ty raw : String) (key value : Option Item)
    (items : List Item) :
    getValue (.mk text ty raw key value items) =
      if raw ≠ "" then .bool (goBoolZero raw)
      else if text ≠ "" then
        (if ty = "xsd:string" then .str text
         else if ty = "xsd:float" then .float (goFloatZero text)
         else if ty = "xsd:int" then .int (goIntZero text)
         else .str text)
      else
        match value, items with
        | some v, _ => getValue v
        | none, [] => .str ""
        | none, i :: rest =>
          if ty = "SOAP-ENC:Array" then .arr (getValueList (i :: rest))
          else .map (buildAssoc (getEntryList (i :: rest))) := by
  cases value <;> cases items <;> simp [getValue]

theorem getValueList_eq_map (l : List Item) : getValueList l = l.map getValue := by
  induction l with
  | nil => simp [getValueList]
  | cons i rest ih => simp [getValueList, ih]

theorem getEntryList_eq_map (l : List Item) :
    getEntryList l = l.map (fun i => (getKey i, getValue i)) := by
  induction l with
  | nil => simp [getEntryList]
  | cons i rest ih => simp [getEntryList, ih]

theorem lastValueFor_entryList (items : List Item) (k : String) :
    lastValueFor (getEntryList items) k =
      ((items.filter (fun i => getKey i == k)).getLast?).map getValue := by
  induction items with
  | nil => simp [getEntryList, lastValueFor]
  | cons i rest ih =>
    have hrw : lastValueFor (getEntryList (i :: rest)) k =
        match lastValueFor (getEntryList rest) k with
        | some v => some v
        | none => if getKey i = k then some (getValue i) else none := by
      simp only [getEntryList, lastValueFor]
    rw [hrw, List.filter_cons]
    cases h : lastValueFor (getEntryList rest) k with
    | some v =>
      rw [ih] at h
      by_cases hk : (getKey i == k) = true
      · rw [if_pos hk]
        cases hf : rest.filter (fun i => getKey i == k) with
        | nil => rw [hf] at h; simp at h
        | cons j l =>
          rw [hf] at h
          rw [List.getLast?_cons_cons]
          simpa using h.symm
      · rw [if_neg hk]
        simpa using h.symm
    | none =>
      rw [ih] at h
      by_cases hk : (getKey i == k) = true
      · rw [if_pos hk]
        have hf : rest.filter (fun i => getKey i == k) = [] := by
          cases hf2 : rest.filter (fun i => getKey i == k) with
          | nil => rfl
          | cons j l =>
            rw [hf2] at h
            rw [Option.map_eq_none', List.getLast?_eq_none_iff] at h
            exact absurd h (List.cons_ne_nil _ _)
        rw [hf]
        have hk' : getKey i = k := by simpa using hk
        simp [hk']
      · rw [if_neg hk, h]
        have hk' : ¬ getKey i = k := by simpa using hk
        simp [hk']

/-! ## Claim theorems -/

/-- C1: the dynamic value resolver follows exactly this first-match-wins
precedence on every node: (1) a non-empty raw/nil marker yields a boolean
parsed from it; (2) else non-empty literal text yields the text for the
string or an unrecognized/absent tag, a parsed 64-bit float for the float
tag, a parsed 64-bit signed integer for the int tag; (3) else a present
value sub-node yields its recursive resolution; (4) else children with
the array tag yield the ordered sequence of the children's resolutions,
preserving order and length; (5) else children yield the map built from
the children; (6) otherwise the result is the empty string. -/
theorem resolver_precedence (text ty raw : String) (key value : Option Item)
    (items : List Item) :
    (raw ≠ "" →
      getValue (.mk text ty raw key value items) = .bool (goBoolZero raw)) ∧
    (raw = "" → text ≠ "" → ty = "xsd:string" →
      getValue (.mk text ty raw key value items) = .str text) ∧
    (raw = "" → text ≠ "" → ty = "xsd:float" →
      getValue (.mk text ty raw key value items) = .float (goFloatZero text)) ∧
    (raw = "" → text ≠ "" → ty = "xsd:int" →
      getValue (.mk text ty raw key value items) = .int (goIntZero text)) ∧
    (raw = "" → text ≠ "" → ty ≠ "xsd:string" → ty ≠ "xsd:float" → ty ≠ "xsd:int" →
      getValue (.mk text ty raw key value items) = .str text) ∧
    (raw = "" → text = "" → ∀ v, value = some v →
      getValue (.mk text ty raw key value items) = getValue v) ∧
    (raw = "" → text = "" → value = none → items ≠ [] → ty = "SOAP-ENC:Array" →
      getValue (.mk text ty raw key value items) = .arr (items.map getValue) ∧
      (items.map getValue).length = items.length) ∧
    (raw = "" → text = "" → value = none → items ≠ [] → ty ≠ "SOAP-ENC:Array" →
      getValue (.mk text ty raw key value items) =
        .map (buildAssoc (items.map (fun i => (getKey i, getValue i))))) ∧
    (raw = "" → text = "" → value = none → items = [] →
      getValue (.mk text ty raw key value items) = .str "") := by
  refine ⟨?_, ?_, ?_, ?_, ?_, ?_, ?_, ?_, ?_⟩
  · intro h
    simp [getValue_mk, h]
  · intro h1 h2 h3
    simp [getValue_mk, h1, h2, h3]
  · intro h1 h2 h3
    simp [getValue_mk, h1, h2, h3]
  · intro h1 h2 h3
    simp [getValue_mk, h1, h2, h3]
  · intro h1 h2 h3 h4 h5
    simp [getValue_mk, h1, h2, h3, h4, h5]
  · intro h1 h2 v hv
    subst hv
    simp [getValue_mk, h1, h2]
  · intro h1 h2 h3 h4 h5
    subst h3
    cases items with
    | nil => exact absurd rfl h4
    | cons i rest =>
      constructor
      · simp [getValue_mk, h1, h2, h5, getValueList_eq_map]
      · simp
  · intro h1 h2 h3 h4 h5
    subst h3
    cases items with
    | nil => exact absurd rfl h4
    | cons i rest =>
      simp [getValue_mk, h1, h2, h5, getEntryList_eq_map]
  · intro h1 h2 h3 h4
    subst h3; subst h4
    simp [getValue_mk, h1, h2]

/-- Witness for resolver_precedence: the raw-marker branch and the
empty-leaf branch at concrete nodes. -/
theorem resolver_precedence_witness :
    getValue (.mk "" "" "true" none none []) = .bool true ∧
    getValue (.mk "" "" "" none none []) = .str "" := by
  constructor
  · have h := (resolver_precedence "" "" "true" none none []).1 (by decide)
    rw [h]
    simp [goBoolZero, goParseBool]
  · exact (resolver_precedence "" "" "" none none []).2.2.2.2.2.2.2.2 rfl rfl rfl rfl

/-- C8: the resolver is total and terminating on every finite node tree —
`getValue` is accepted as a terminating function recursing only into the
value sub-node and the child list, both strict subtrees — and every result
is one of the six kinds: boolean, string, float, integer, sequence,
mapping. -/
theorem resolver_total_kinds (it : Item) :
    (getValue it).kind = ValueKind.bool ∨ (getValue it).kind = ValueKind.str ∨
    (getValue it).kind = ValueKind.float ∨ (getValue it).kind = ValueKind.int ∨
    (getValue it).kind = ValueKind.arr ∨ (getValue it).kind = ValueKind.map := by
  cases h : getValue it <;> simp [Value.kind]

/-- C6: scalar parsing inside the resolver is permissive and never fails
the operation: a malformed raw/nil boolean literal resolves to the zero
boolean `false`; malformed text under the float tag resolves to `0.0`;
malformed text under the int tag resolves to the integer `0`.  (No error
channel exists: `getValue` is a total function into `Value`.) -/
theorem resolver_permissive_scalars (text ty raw : String) (key value : Option Item)
    (items : List Item) :
    (raw ≠ "" → goParseBool raw = none →
      getValue (.mk text ty raw key value items) = .bool false) ∧
    (raw = "" → text ≠ "" → ty = "xsd:float" → goParseFloat text = none →
      getValue (.mk text ty raw key value items) = .float (.finite 0)) ∧
    (raw = "" → text ≠ "" → ty = "xsd:int" → goParseInt text = none →
      getValue (.mk text ty raw key value items) = .int 0) := by
  refine ⟨?_, ?_, ?_⟩
  · intro h hp
    simp [getValue_mk, h, goBoolZero, hp]
  · intro h1 h2 h3 hp
    simp [getValue_mk, h1, h2, h3, goFloatZero, hp]
  · intro h1 h2 h3 hp
    simp [getValue_mk, h1, h2, h3, goIntZero, hp]

/-- Witness for resolver_permissive_scalars at concrete malformed
literals. -/
theorem resolver_permissive_scalars_witness :
    goParseBool "maybe" = none ∧
    getValue (.mk "" "" "maybe" none none []) = .bool false ∧
    goParseFloat "abc" = none ∧
    getValue (.mk "abc" "xsd:float" "" none none []) = .float (.finite 0) ∧
    goParseInt "12a" = none ∧
    getValue (.mk "12a" "xsd:int" "" none none []) = .int 0 := by
  refine ⟨by decide, ?_, by decide, ?_, by decide, ?_⟩
  · exact (resolver_permissive_scalars "" "" "maybe" none none []).1
      (by decide) (by decide)
  · exact (resolver_permissive_scalars "abc" "xsd:float" "" none none []).2.1
      rfl (by decide) rfl (by decide)
  · exact (resolver_permissive_scalars "12a" "xsd:int" "" none none []).2.2
      rfl (by decide) rfl (by decide)

/-- C4: a node whose map branch is reached (empty raw marker and text, no
value sub-node, non-empty child list, type tag other than the array
marker) resolves to an insertion-ordered mapping from each child's key
sub-node text to that child's resolved value: the map binds each key at
most once, its key set equals the set of child key texts, and its binding
at every key is the resolved value of the last child bearing that key
(a later duplicate key's value overwrites an earlier one). -/
theorem resolver_map_semantics (ty : String) (key : Option Item) (items : List Item)
    (hitems : items ≠ []) (hty : ty ≠ "SOAP-ENC:Array") :
    ∃ m, getValue (.mk "" ty "" key none items) = .map m ∧
      (m.map Prod.fst).Nodup ∧
      (∀ k, (∃ p ∈ m, p.1 = k) ↔ ∃ i ∈ items, getKey i = k) ∧
      (∀ k, lookupKV m k =
        ((items.filter (fun i => getKey i == k)).getLast?).map getValue) := by
  refine ⟨buildAssoc (getEntryList items), ?_, nodup_keys_buildAssoc _, ?_, ?_⟩
  · cases items with
    | nil => exact absurd rfl hitems
    | cons i rest => simp [getValue_mk, hty]
  · intro k
    rw [← lookupKV_isSome_iff, lookupKV_buildAssoc, lastValueFor_isSome_iff,
      getEntryList_eq_map]
    simp
  · intro k
    rw [lookupKV_buildAssoc, lastValueFor_entryList]

/-- Witness for resolver_map_semantics at a concrete node with duplicate
keys "a", "a" and key "b". -/
theorem resolver_map_semantics_witness :
    ∃ m, getValue (.mk "" "x" "" none none cexMapItems) = .map m ∧
      (m.map Prod.fst).Nodup ∧
      (∀ k, (∃ p ∈ m, p.1 = k) ↔ ∃ i ∈ cexMapItems, getKey i = k) ∧
      (∀ k, lookupKV m k =
        ((cexMapItems.filter (fun i => getKey i == k)).getLast?).map getValue) :=
  resolver_map_semantics "x" none cexMapItems
    (by simp [cexMapItems]) (by decide)

/-- C10: in the map branch, a child lacking a key sub-node contributes its
value under the empty-string key, so several keyless children collapse
into the single empty-string entry, which holds the resolved value of the
last child keyed by the empty string. -/
theorem resolver_keyless_children (ty : String) (key : Option Item)
    (items : List Item) (hitems : items ≠ []) (hty : ty ≠ "SOAP-ENC:Array") :
    (∀ (t t2 r2 : String) (v2 : Option Item) (its2 : List Item),
      getKey (.mk t t2 r2 none v2 its2) = "") ∧
    ∃ m, getValue (.mk "" ty "" key none items) = .map m ∧
      lookupKV m "" =
        ((items.filter (fun i => getKey i == "")).getLast?).map getValue ∧
      (m.map Prod.fst).count "" ≤ 1 := by
  refine ⟨fun t t2 r2 v2 its2 => rfl, buildAssoc (getEntryList items), ?_, ?_, ?_⟩
  · cases items with
    | nil => exact absurd rfl hitems
    | cons i rest => simp [getValue_mk, hty]
  · rw [lookupKV_buildAssoc, lastValueFor_entryList]
  · exact List.nodup_iff_count_le_one.mp (nodup_keys_buildAssoc _) _

/-- Witness for resolver_keyless_children at a concrete node with two
keyless children: the single empty-string entry holds the last child's
value. -/
theorem resolver_keyless_children_witness :
    ((∀ (t t2 r2 : String) (v2 : Option Item) (its2 : List Item),
      getKey (.mk t t2 r2 none v2 its2) = "") ∧
    ∃ m, getValue (.mk "" "x" "" none none cexKeylessItems) = .map m ∧
      lookupKV m "" =
        ((cexKeylessItems.filter (fun i => getKey i == "")).getLast?).map getValue ∧
      (m.map Prod.fst).count "" ≤ 1) ∧
    ((cexKeylessItems.filter (fun i => getKey i == "")).getLast?).map getValue =
      some (.str "2") := by
  refine ⟨resolver_keyless_children "x" none cexKeylessItems
    (by simp [cexKeylessItems]) (by decide), ?_⟩
  simp [cexKeylessItems, getKey, getValue]

/-- C2: a decoded response envelope whose body contains a fault makes each
of the four DNS operations return an error carrying exactly that fault's
code, message and actor; the result does not depend on the rest of the
envelope or on the operation's mapper, so neither the resolver nor the
result mapper is consulted. -/
theorem fault_short_circuit (envlp : KasAPIResponseEnvelope) (f : Fault)
    (gm : Value → Option GetDNSSettingsAPIResponse)
    (am um : Value → Option AddDNSSettingsAPIResponse)
    (dm : Value → Option DeleteDNSSettingsAPIResponse)
    (h : envlp.Body.Fault = some f) :
    getDNSSettingsModel gm (.response 200 (some envlp)) = .error (.remoteFault f) ∧
    addDNSSettingsModel am (.response 200 (some envlp)) = .error (.remoteFault f) ∧
    updateDNSSettingsModel um (.response 200 (some envlp)) = .error (.remoteFault f) ∧
    deleteDNSSettingsModel dm (.response 200 (some envlp)) = .error (.remoteFault f) := by
  refine ⟨?_, ?_, ?_, ?_⟩ <;>
    simp [getDNSSettingsModel, addDNSSettingsModel, updateDNSSettingsModel,
      deleteDNSSettingsModel, doModel, h]

/-- Witness for fault_short_circuit on a concrete faulty envelope that
also carries a well-formed return node. -/
theorem fault_short_circuit_witness :
    getDNSSettingsModel (fun _ => none) (.response 200 (some cexFaultEnvelope)) =
      .error (.remoteFault cexFault) ∧
    addDNSSettingsModel (fun _ => none) (.response 200 (some cexFaultEnvelope)) =
      .error (.remoteFault cexFault) ∧
    updateDNSSettingsModel (fun _ => none) (.response 200 (some cexFaultEnvelope)) =
      .error (.remoteFault cexFault) ∧
    deleteDNSSettingsModel (fun _ => none) (.response 200 (some cexFaultEnvelope)) =
      .error (.remoteFault cexFault) :=
  fault_short_circuit cexFaultEnvelope cexFault
    (fun _ => none) (fun _ => none) (fun _ => none) (fun _ => none) rfl

/-- C9: after a successful 200 decode with no fault, the pipeline
unconditionally dereferences the success body's return node: an envelope
missing the KasApiResponse element, or one whose return node is absent,
leads to a nil-pointer dereference in the non-error branch instead of a
decode error. -/
theorem missing_return_nil_deref {α : Type} (mapper : Value → Option α)
    (envlp : KasAPIResponseEnvelope) (h1 : envlp.Body.Fault = none)
    (h2 : envlp.Body.KasAPIResponse = none ∨
      ∃ r, envlp.Body.KasAPIResponse = some r ∧ r.Return = none) :
    doModel mapper (.response 200 (some envlp)) = .nilDeref := by
  rcases h2 with h2 | ⟨r, h2, h3⟩
  · simp [doModel, h1, h2]
  · simp [doModel, h1, h2, h3]

/-- Witness for missing_return_nil_deref on both degenerate envelopes. -/
theorem missing_return_nil_deref_witness :
    doModel (fun _ => (none : Option Bool))
      (.response 200 (some ⟨⟨none, none⟩⟩)) = .nilDeref ∧
    doModel (fun _ => (none : Option Bool))
      (.response 200 (some ⟨⟨some ⟨none⟩, none⟩⟩)) = .nilDeref :=
  ⟨missing_return_nil_deref _ _ rfl (Or.inl rfl),
   missing_return_nil_deref _ _ rfl (Or.inr ⟨⟨none⟩, rfl, rfl⟩)⟩

/-- C5 counterexample: with no token in the context, a login response
whose return node has empty literal text but a value sub-node carrying
the token makes `Authentication` return the empty string, while the
resolver resolves that node to "TOKEN42" — the operation returns the
return node's literal text, not its resolved text, so the claim as stated
fails on this input. -/
theorem auth_resolved_text_counterexample :
    (Authentication ⟨"user", "pass"⟩ ⟨none⟩
        (fun _ => .response 200 (some ⟨⟨some ⟨some cexAuthRet⟩, none⟩⟩))).1 = .ok "" ∧
    getValue cexAuthRet = .str "TOKEN42" ∧ ("" : String) ≠ "TOKEN42" := by
  refine ⟨?_, ?_, by decide⟩
  · simp [Authentication, getToken, authResponse, cexAuthRet]
  · simp [cexAuthRet, getValue]

/-- C5 (amended): given an execution context carrying a non-empty token,
`Authentication` returns that token unchanged and performs no network
call; given a context with no token, it performs exactly one login call
using plain-password credentials with a requested 300-second session
lifetime and lifetime auto-renewal enabled, and returns the login
response return node's literal text (equal to its resolved value for
scalar text nodes), or the decoded fault as an error if the login is
rejected. -/
theorem auth_behaviour (c : Identifier) (ctx : Context)
    (net : AuthRequest → AuthNetResult) :
    (getToken ctx ≠ "" →
      Authentication c ctx net = (.ok (getToken ctx), [])) ∧
    (getToken ctx = "" →
      loginRequest c =
        ({ Login := c.login, AuthData := c.password, AuthType := "plain",
           SessionLifetime := 300, SessionUpdateLifetime := "Y" } : AuthRequest) ∧
      (Authentication c ctx net).2 = [loginRequest c] ∧
      (∀ f envlp, net (loginRequest c) = .response 200 (some envlp) →
        envlp.Body.Fault = some f →
        (Authentication c ctx net).1 = .error (.remoteFault f)) ∧
      (∀ envlp r text t2 r2 k2 v2 its2,
        net (loginRequest c) = .response 200 (some envlp) →
        envlp.Body.Fault = none →
        envlp.Body.KasAuthResponse = some r →
        r.Return = some (.mk text t2 r2 k2 v2 its2) →
        (Authentication c ctx net).1 = .ok text)) := by
  constructor
  · intro h
    simp [Authentication, h]
  · intro h
    refine ⟨rfl, ?_, ?_, ?_⟩
    · simp [Authentication, h]
    · intro f envlp hn hf
      simp [Authentication, h, authResponse, hn, hf]
    · intro envlp r text t2 r2 k2 v2 its2 hn hf hr hret
      simp [Authentication, h, authResponse, hn, hf, hr, hret]

/-- Witness for auth_behaviour: token reuse on a context carrying "tok",
and a full login on an empty context returning the response text. -/
theorem auth_behaviour_witness :
    Authentication ⟨"u", "p"⟩ ⟨some "tok"⟩ (fun _ => .ioErr) = (.ok "tok", []) ∧
    (Authentication ⟨"u", "p"⟩ ⟨none⟩
        (fun _ => .response 200
          (some ⟨⟨some ⟨some (.mk "sess" "" "" none none [])⟩, none⟩⟩))).1 =
      .ok "sess" ∧
    (Authentication ⟨"u", "p"⟩ ⟨none⟩
        (fun _ => .response 200
          (some ⟨⟨some ⟨some (.mk "sess" "" "" none none [])⟩, none⟩⟩))).2 =
      [loginRequest ⟨"u", "p"⟩] := by
  refine ⟨?_, ?_, ?_⟩
  · exact (auth_behaviour ⟨"u", "p"⟩ ⟨some "tok"⟩ (fun _ => .ioErr)).1 (by decide)
  · exact ((auth_behaviour ⟨"u", "p"⟩ ⟨none⟩ _).2 rfl).2.2.2
      _ _ "sess" "" "" none none [] rfl rfl rfl rfl
  · exact ((auth_behaviour ⟨"u", "p"⟩ ⟨none⟩ _).2 rfl).2.1

/-- C3 counterexample: two serialized `updateFloodTime` calls with
non-negative delays at non-decreasing call times where the second call
moves the deadline backward: recording delay 100 at time 0 leaves
deadline 100, then recording delay 0 at time 1 leaves deadline 1 < 100,
so a completed call can pull the deadline back. -/
theorem flood_deadline_can_decrease :
    (0 : Int) ≤ 100 ∧ (0 : Int) ≤ 0 ∧ (0 : Int) ≤ 1 ∧
    floodDeadlines [(0, 100), (1, 0)] = [100, 1] ∧
    updateFloodTime 1 0 < updateFloodTime 0 100 := by
  decide

/-- C3 (amended): each `updateFloodTime` call sets the deadline to its own
calling moment plus its delay, so an arbitrary interleaving can move the
deadline backward; the deadline is non-decreasing across every sequence
of calls in which each call happens no earlier than the deadline it
replaces (the wait-then-update discipline of the operations) and carries
a non-negative delay. -/
theorem flood_deadline_monotone (d0 : Int) (calls : List (Int × Int))
    (h : waitsThenUpdates d0 calls = true) :
    List.Chain (· ≤ ·) d0 (floodDeadlines calls) := by
  induction calls generalizing d0 with
  | nil => simp [floodDeadlines]
  | cons p rest ih =>
    obtain ⟨now, delay⟩ := p
    simp only [waitsThenUpdates, Bool.and_eq_true, decide_eq_true_eq] at h
    obtain ⟨⟨h1, h2⟩, h3⟩ := h
    simp only [floodDeadlines]
    refine List.Chain.cons ?_ (ih _ h3)
    show d0 ≤ now + delay
    omega

/-- Witness for flood_deadline_monotone on a concrete disciplined
sequence. -/
theorem flood_deadline_monotone_witness :
    waitsThenUpdates 0 [(0, 2), (3, 1)] = true ∧
    List.Chain (fun a b => a ≤ b) 0 (floodDeadlines [(0, 2), (3, 1)]) :=
  ⟨by decide, flood_deadline_monotone 0 [(0, 2), (3, 1)] (by decide)⟩

/-- C7: each of the four DNS operations issues its HTTP request only
through `Client.do`, whose event sequence locks the flood mutex, sleeps
until the deadline while holding the lock, unlocks, and only then sends;
in the timed semantics the send completes at `max now deadline`, which is
never earlier than the deadline, so the request is not sent while
now < deadline. -/
theorem flood_wait_before_send (now deadline : Int) :
    getDNSSettingsEvents = doEventTrace ∧
    addDNSSettingsEvents = doEventTrace ∧
    updateDNSSettingsEvents = doEventTrace ∧
    deleteDNSSettingsEvents = doEventTrace ∧
    runTimed deadline now doEventTrace =
      [(.lockFlood, now), (.sleepUntilDeadline, max now deadline),
       (.unlockFlood, max now deadline), (.httpSend, max now deadline)] ∧
    eventTime (runTimed deadline now doEventTrace) .httpSend =
      some (max now deadline) ∧
    deadline ≤ max now deadline ∧
    doEventTrace.indexOf DoEvent.lockFlood <
      doEventTrace.indexOf DoEvent.sleepUntilDeadline ∧
    doEventTrace.indexOf DoEvent.sleepUntilDeadline <
      doEventTrace.indexOf DoEvent.unlockFlood ∧
    doEventTrace.indexOf DoEvent.unlockFlood <
      doEventTrace.indexOf DoEvent.httpSend := by
  refine ⟨rfl, rfl, rfl, rfl, ?_, ?_, le_max_right _ _, by decide, by decide, by decide⟩
  · simp [runTimed, doEventTrace]
  · simp [eventTime, runTimed, doEventTrace]

end Allinkl
